import Mathlib

/-!
# Verification of the address-book core

A shallow embedding, in Lean 4, of the address-book core of the repository
(`tasks/address_book`): the `Phone`/`Email` field normalization
(`record.py`, `Phone.prepare` / `Email.prepare`), the `Record` class with
its phone/email collections and CRUD operations, and the `AddressBook`
keyed collection (`book.py`).

Modelling conventions:

* Raw values are Lean `String`s.  Python's regular-expression classes are
  modelled on their ASCII fragment: `\s` is the six ASCII whitespace
  characters, `\d` is `Char.isDigit`, `[a-zA-Z]` is `Char.isAlpha`.
* Python exceptions become the `ABError` enumeration; an operation that can
  raise returns `Except ABError _` (queries) or a pair
  `state × Option ABError` (mutators).  For a mutator the returned state is
  the state of the Python object when the call returns *or raises*: the
  definitions mirror the statement order of the Python methods, so a raise
  point before the single mutating statement yields the unchanged state.
  In particular, in `edit_phone` / `edit_email` the right-hand side
  `Phone(phone)` of the Python assignment is evaluated before the
  subscript target, hence the new value is validated first.
* The `phones` / `emails` collections store the normalized value strings:
  a Python `Phone`/`Email` field object carries exactly its `value`, and
  `list.remove` / `list.index` fall back on object identity, which on the
  object returned by `__find_phone` coincides with first-occurrence search
  by value.
-/

namespace AB

/-- The typed errors of `error/exceptions.py` that the core can raise. -/
inductive ABError where
  | contactNotFound
  | contactAlreadyExist
  | contactNameMandatory
  | contactPhoneNotFound
  | contactPhoneAlreadyExist
  | contactPhoneValueError
  | contactEmailNotFound
  | contactEmailAlreadyExist
  | contactEmailValueError
deriving DecidableEq, Repr

/-- ASCII fragment of the `\s` regular-expression class: space, tab,
newline, carriage return, vertical tab, form feed. -/
def isSpaceChar (c : Char) : Bool :=
  c = ' ' || c = '\t' || c = '\n' || c = '\r' || c = '\x0b' || c = '\x0c'

/-- The characters deleted by `Phone.value_clear_pattern = r"[()-]|\s"`. -/
def Phone.clearChar (c : Char) : Bool :=
  c = '(' || c = ')' || c = '-' || isSpaceChar c

/-- `re.sub(pattern, "", s)` for a pattern that is a character class:
delete every character satisfying `p`. -/
def clearBy (p : Char → Bool) (s : String) : String :=
  ⟨s.toList.filter (fun c => !(p c))⟩

/-- `re.match(r"^\d{10}$", s)`: exactly ten decimal digits. -/
def tenDigits (s : String) : Bool :=
  s.toList.length == 10 && s.toList.all Char.isDigit

/-- `Phone.prepare` (`record.py` lines 59-75): reject an empty value,
delete the characters of `[()-]|\s`, then require exactly ten digits. -/
def Phone.prepare (value : String) : Except ABError String :=
  if value = "" then .error .contactPhoneValueError
  else
    let v := clearBy Phone.clearChar value
    if tenDigits v then .ok v else .error .contactPhoneValueError

/-- Character class `[a-zA-Z0-9_.+-]` (the local part of
`Email.value_match_pattern`). -/
def localChar (c : Char) : Bool :=
  c.isAlpha || c.isDigit || c = '_' || c = '.' || c = '+' || c = '-'

/-- Character class `[a-zA-Z0-9-]` (the domain head). -/
def domainChar (c : Char) : Bool :=
  c.isAlpha || c.isDigit || c = '-'

/-- Character class `[a-zA-Z0-9-.]` (the domain tail). -/
def tailChar (c : Char) : Bool :=
  c.isAlpha || c.isDigit || c = '-' || c = '.'

/-- `re.match(r"^[a-zA-Z0-9_.+-]+@[a-zA-Z0-9-]+\.[a-zA-Z0-9-.]+$", s)`.
Since `@` occurs in no class and `.` does not occur in the domain-head
class, the backtracking match succeeds exactly on the split at the first
`@` and the first `.` after it. -/
def emailMatch (s : String) : Bool :=
  let l := s.toList
  let loc := l.takeWhile (fun c => c ≠ '@')
  match l.dropWhile (fun c => c ≠ '@') with
  | _ :: afterAt =>
    let dom := afterAt.takeWhile (fun c => c ≠ '.')
    match afterAt.dropWhile (fun c => c ≠ '.') with
    | _ :: tl =>
      !loc.isEmpty && loc.all localChar && !dom.isEmpty && dom.all domainChar
        && !tl.isEmpty && tl.all tailChar
    | [] => false
  | [] => false

/-- `Email.prepare` (`record.py` lines 89-105): reject an empty value,
delete all whitespace, then require the address shape. -/
def Email.prepare (value : String) : Except ABError String :=
  if value = "" then .error .contactEmailValueError
  else
    let v := clearBy isSpaceChar value
    if emailMatch v then .ok v else .error .contactEmailValueError

/-- A contact `Record` (`record.py` lines 108-240): a name plus the ordered
lists of stored (already normalized) phone and email values. -/
structure Record where
  name : String
  phones : List String
  emails : List String
deriving DecidableEq, Repr

/-- `Record.__find_phone` (lines 130-139): normalize the argument (which
can raise), then return the first stored phone with that value, if any. -/
def Record.findPhoneOpt (r : Record) (phone : String) : Except ABError (Option String) :=
  match Phone.prepare phone with
  | .error e => .error e
  | .ok v => .ok (r.phones.find? (fun p => p = v))

/-- `Record.__find_email` (lines 141-150). -/
def Record.findEmailOpt (r : Record) (email : String) : Except ABError (Option String) :=
  match Email.prepare email with
  | .error e => .error e
  | .ok v => .ok (r.emails.find? (fun p => p = v))

/-- `Record.find_phone` (lines 152-163): like `__find_phone` but raising
`ContactPhoneNotFound` when there is no match. -/
def Record.find_phone (r : Record) (phone : String) : Except ABError String :=
  match r.findPhoneOpt phone with
  | .error e => .error e
  | .ok none => .error .contactPhoneNotFound
  | .ok (some p) => .ok p

/-- `Record.find_email` (lines 191-202). -/
def Record.find_email (r : Record) (email : String) : Except ABError String :=
  match r.findEmailOpt email with
  | .error e => .error e
  | .ok none => .error .contactEmailNotFound
  | .ok (some p) => .ok p

/-- `Record.add_phone` (lines 165-174): raise if `__find_phone` finds the
normalized value (or raises itself), otherwise append `Phone(phone)`.
The `Phone(phone)` constructor re-normalizes; its raise point precedes the
append. -/
def Record.add_phone (r : Record) (phone : String) : Record × Option ABError :=
  match r.findPhoneOpt phone with
  | .error e => (r, some e)
  | .ok (some _) => (r, some .contactPhoneAlreadyExist)
  | .ok none =>
    match Phone.prepare phone with
    | .error e => (r, some e)
    | .ok v => ({ r with phones := r.phones ++ [v] }, none)

/-- `Record.add_email` (lines 204-213). -/
def Record.add_email (r : Record) (email : String) : Record × Option ABError :=
  match r.findEmailOpt email with
  | .error e => (r, some e)
  | .ok (some _) => (r, some .contactEmailAlreadyExist)
  | .ok none =>
    match Email.prepare email with
    | .error e => (r, some e)
    | .ok v => ({ r with emails := r.emails ++ [v] }, none)

/-- `Record.remove_phone` (lines 176-181): `find_phone` raises before the
`list.remove`, which deletes the first occurrence of the found value. -/
def Record.remove_phone (r : Record) (phone : String) : Record × Option ABError :=
  match r.find_phone phone with
  | .error e => (r, some e)
  | .ok v => ({ r with phones := r.phones.erase v }, none)

/-- `Record.remove_email` (lines 215-220). -/
def Record.remove_email (r : Record) (email : String) : Record × Option ABError :=
  match r.find_email email with
  | .error e => (r, some e)
  | .ok v => ({ r with emails := r.emails.erase v }, none)

/-- `Record.edit_phone` (lines 183-189):
`self.phones[self.phones.index(self.find_phone(existing))] = Phone(phone)`.
Python evaluates the right-hand side `Phone(phone)` before the assignment
target, so the new value is validated first; `list.index` on the object
returned by `find_phone` is the index of the first occurrence of its
value. -/
def Record.edit_phone (r : Record) (existingPhone phone : String) : Record × Option ABError :=
  match Phone.prepare phone with
  | .error e => (r, some e)
  | .ok newV =>
    match r.find_phone existingPhone with
    | .error e => (r, some e)
    | .ok oldV => ({ r with phones := r.phones.set (r.phones.indexOf oldV) newV }, none)

/-- `Record.edit_email` (lines 222-228). -/
def Record.edit_email (r : Record) (existingEmail email : String) : Record × Option ABError :=
  match Email.prepare email with
  | .error e => (r, some e)
  | .ok newV =>
    match r.find_email existingEmail with
    | .error e => (r, some e)
    | .ok oldV => ({ r with emails := r.emails.set (r.emails.indexOf oldV) newV }, none)

/-- One seeding step of `Record.__init__` (lines 120-123):
`if self.__find_phone(phone) is None: self.add_phone(phone)`. -/
def Record.seedPhone (r : Record) (phone : String) : Except ABError Record :=
  match r.findPhoneOpt phone with
  | .error e => .error e
  | .ok (some _) => .ok r
  | .ok none =>
    match r.add_phone phone with
    | (r1, none) => .ok r1
    | (_, some e) => .error e

/-- One seeding step of `Record.__init__` (lines 125-128) for emails. -/
def Record.seedEmail (r : Record) (email : String) : Except ABError Record :=
  match r.findEmailOpt email with
  | .error e => .error e
  | .ok (some _) => .ok r
  | .ok none =>
    match r.add_email email with
    | (r1, none) => .ok r1
    | (_, some e) => .error e

/-- `Record.__init__` (lines 109-128): `Name` rejects an empty name; the
optional seed lists are folded through the duplicate-skipping seeding
steps (a `None` list seeds nothing). -/
def Record.init (name : String) (phones emails : Option (List String)) :
    Except ABError Record :=
  if name = "" then .error .contactNameMandatory
  else do
    let r1 ← (phones.getD []).foldlM Record.seedPhone ⟨name, [], []⟩
    (emails.getD []).foldlM Record.seedEmail r1

/-- `AddressBook` (`book.py`): a `UserDict`, i.e. an insertion-ordered
mapping from name to record, modelled as the association list of its
entries. -/
structure AddressBook where
  data : List (String × Record)
deriving DecidableEq, Repr

/-- `name in self` on the underlying dict. -/
def AddressBook.hasKey (b : AddressBook) (name : String) : Bool :=
  b.data.any (fun kv => kv.1 = name)

/-- Dict lookup `self.get(name, None)`. -/
def AddressBook.getOpt (b : AddressBook) (name : String) : Option Record :=
  (b.data.find? (fun kv => kv.1 = name)).map Prod.snd

/-- `AddressBook.find` (`book.py` lines 27-37). -/
def AddressBook.find (b : AddressBook) (name : String) : Except ABError Record :=
  if b.hasKey name then
    match b.getOpt name with
    | some r => .ok r
    | none => .error .contactNotFound
  else .error .contactNotFound

/-- `AddressBook.add_record` (`book.py` lines 39-48): raise if
`str(contact.name)` is already a key, else store the record under it
(a fresh dict key is appended in insertion order). -/
def AddressBook.add_record (b : AddressBook) (c : Record) : AddressBook × Option ABError :=
  if b.hasKey c.name then (b, some .contactAlreadyExist)
  else (⟨b.data ++ [(c.name, c)]⟩, none)

/-- `AddressBook.delete` (`book.py` lines 50-59): raise if the key is
absent, else `pop` the (unique) entry with that key. -/
def AddressBook.delete (b : AddressBook) (name : String) : AddressBook × Option ABError :=
  if b.hasKey name then (⟨b.data.eraseP (fun kv => kv.1 = name)⟩, none)
  else (b, some .contactNotFound)

/-- `AddressBook.__init__` (`book.py` lines 16-25): seed the given records
in order, skipping a record whose name is already a key. -/
def AddressBook.init (contacts : List Record) : AddressBook :=
  contacts.foldl (fun b c => if b.hasKey c.name then b else (b.add_record c).1) ⟨[]⟩

/-- The mutating `Record` operations, for reasoning about operation
sequences. -/
inductive ROp where
  | addPhone (p : String)
  | removePhone (p : String)
  | editPhone (old new : String)
  | addEmail (e : String)
  | removeEmail (e : String)
  | editEmail (old new : String)
deriving DecidableEq, Repr

/-- Apply one mutating operation to a record. -/
def Record.applyOp (r : Record) : ROp → Record × Option ABError
  | .addPhone p => r.add_phone p
  | .removePhone p => r.remove_phone p
  | .editPhone old new => r.edit_phone old new
  | .addEmail e => r.add_email e
  | .removeEmail e => r.remove_email e
  | .editEmail old new => r.edit_email old new

/-- Run a sequence of mutating operations; the state after a raising call
is the state the call left behind. -/
def Record.runOps (r : Record) (ops : List ROp) : Record :=
  ops.foldl (fun s op => (s.applyOp op).1) r

/-- Whether an operation is one of the two edit operations. -/
def ROp.isEdit : ROp → Bool
  | .editPhone _ _ => true
  | .editEmail _ _ => true
  | _ => false

/-- The mutating `AddressBook` operations. -/
inductive BOp where
  | add (c : Record)
  | del (n : String)
deriving DecidableEq, Repr

/-- Apply one mutating operation to an address book. -/
def AddressBook.applyOp (b : AddressBook) : BOp → AddressBook × Option ABError
  | .add c => b.add_record c
  | .del n => b.delete n

/-- Run a sequence of mutating operations on an address book. -/
def AddressBook.runOps (b : AddressBook) (ops : List BOp) : AddressBook :=
  ops.foldl (fun s op => (s.applyOp op).1) b

/-! ## Claim-side phone normalization (for C4) -/

/-- The C4 claim's normalization, following the claim's words literally:
reject an empty value, remove exactly the literal characters space, `(`,
`)`, `-` anywhere in the string, then require exactly ten ASCII digits. -/
def Phone.prepareClaim (value : String) : Except ABError String :=
  if value = "" then .error .contactPhoneValueError
  else
    let v := clearBy (fun c => c = ' ' || c = '(' || c = ')' || c = '-') value
    if tenDigits v then .ok v else .error .contactPhoneValueError

/-- The amended C4 claim's normalization: as the claim, but removing every
whitespace character (space, tab, newline, carriage return, vertical tab,
form feed), not only the space. -/
def Phone.prepareAmendedClaim (value : String) : Except ABError String :=
  if value = "" then .error .contactPhoneValueError
  else
    let v := clearBy (fun c => c = ' ' || c = '\t' || c = '\n' || c = '\r'
      || c = '\x0b' || c = '\x0c' || c = '(' || c = ')' || c = '-') value
    if tenDigits v then .ok v else .error .contactPhoneValueError

/-- The C6 key invariant: every stored key equals the `name` of the
record it maps to. -/
def AddressBook.KeysOK (b : AddressBook) : Prop :=
  ∀ kv ∈ b.data, kv.1 = kv.2.name

/-- Keep the first occurrence of each value (relative to the already-seen
values), dropping later duplicates: the specification-side description of
the bulk-seed behaviour of `Record.__init__`. -/
def firstDedupAux (seen : List String) : List String → List String
  | [] => []
  | x :: xs =>
    if seen.contains x then firstDedupAux seen xs
    else x :: firstDedupAux (seen ++ [x]) xs

/-- `firstDedupAux` starting from nothing seen. -/
def firstDedup (l : List String) : List String :=
  firstDedupAux [] l


/-! ## Basic properties of the normalization functions -/

theorem prepare_phone_ok {p v : String} (h : Phone.prepare p = .ok v) :
    p ≠ "" ∧ v = clearBy Phone.clearChar p ∧ tenDigits v = true := by
  simp only [Phone.prepare] at h
  split at h
  · exact absurd h (by simp)
  · rename_i hne
    split at h
    · rename_i hten
      injection h with h1
      exact ⟨hne, h1.symm, h1 ▸ hten⟩
    · exact absurd h (by simp)

theorem prepare_phone_error {p : String} {e : ABError} (h : Phone.prepare p = .error e) :
    e = .contactPhoneValueError := by
  simp only [Phone.prepare] at h
  split at h
  · injection h with h1; exact h1.symm
  · split at h
    · exact absurd h (by simp)
    · injection h with h1; exact h1.symm

theorem prepare_email_ok {p v : String} (h : Email.prepare p = .ok v) :
    p ≠ "" ∧ v = clearBy isSpaceChar p ∧ emailMatch v = true := by
  simp only [Email.prepare] at h
  split at h
  · exact absurd h (by simp)
  · rename_i hne
    split at h
    · rename_i hm
      injection h with h1
      exact ⟨hne, h1.symm, h1 ▸ hm⟩
    · exact absurd h (by simp)

theorem prepare_email_error {p : String} {e : ABError} (h : Email.prepare p = .error e) :
    e = .contactEmailValueError := by
  simp only [Email.prepare] at h
  split at h
  · injection h with h1; exact h1.symm
  · split at h
    · exact absurd h (by simp)
    · injection h with h1; exact h1.symm

theorem digit_not_cleared {c : Char} (h : c.isDigit = true) : Phone.clearChar c = false := by
  cases hc : Phone.clearChar c with
  | false => rfl
  | true =>
    exfalso
    simp only [Phone.clearChar, isSpaceChar, Bool.or_eq_true, decide_eq_true_eq] at hc
    rcases hc with ((hc | hc) | hc) | ((((hc | hc) | hc) | hc) | hc) | hc <;>
      rw [hc] at h <;> exact absurd h (by decide)

theorem string_mk_toList (s : String) : (⟨s.toList⟩ : String) = s := rfl

theorem clearBy_of_all_kept {p : Char → Bool} {s : String}
    (h : ∀ c ∈ s.toList, p c = false) : clearBy p s = s := by
  unfold clearBy
  have hf : s.toList.filter (fun c => !(p c)) = s.toList := by
    apply List.filter_eq_self.mpr
    intro c hc
    simp [h c hc]
  rw [hf]
  exact string_mk_toList s

theorem clearBy_idem (p : Char → Bool) (s : String) :
    clearBy p (clearBy p s) = clearBy p s := by
  apply clearBy_of_all_kept
  intro c hc
  unfold clearBy at hc
  have : c ∈ s.toList.filter (fun c => !(p c)) := hc
  have hp := List.of_mem_filter this
  simpa using hp

theorem tenDigits_ne_empty {v : String} (h : tenDigits v = true) : v ≠ "" := by
  intro hv
  subst hv
  exact absurd h (by decide)

theorem emailMatch_ne_empty {v : String} (h : emailMatch v = true) : v ≠ "" := by
  intro hv
  subst hv
  exact absurd h (by decide)

/-! ## `find?` on stored value lists -/

theorem find?_self_of_mem {l : List String} {v : String} (h : v ∈ l) :
    l.find? (fun x => x = v) = some v := by
  have hs : (l.find? (fun x => x = v)).isSome :=
    List.find?_isSome.mpr ⟨v, h, by simp⟩
  obtain ⟨w, hw⟩ := Option.isSome_iff_exists.mp hs
  have he := List.find?_some hw
  simp only [decide_eq_true_eq] at he
  rw [hw, he]

theorem find?_none_of_not_mem {l : List String} {v : String} (h : v ∉ l) :
    l.find? (fun x => x = v) = none := by
  apply List.find?_eq_none.mpr
  intro x hx
  simp only [decide_eq_true_eq]
  rintro rfl
  exact h hx

/-! ## Characterizations of the `Record` operations -/

theorem find_phone_eq {r : Record} {p v : String} (hp : Phone.prepare p = .ok v) :
    r.find_phone p =
      if v ∈ r.phones then .ok v else .error .contactPhoneNotFound := by
  by_cases hm : v ∈ r.phones
  · simp only [Record.find_phone, Record.findPhoneOpt, hp, find?_self_of_mem hm, if_pos hm]
  · simp only [Record.find_phone, Record.findPhoneOpt, hp, find?_none_of_not_mem hm,
      if_neg hm]

theorem find_email_eq {r : Record} {p v : String} (hp : Email.prepare p = .ok v) :
    r.find_email p =
      if v ∈ r.emails then .ok v else .error .contactEmailNotFound := by
  by_cases hm : v ∈ r.emails
  · simp only [Record.find_email, Record.findEmailOpt, hp, find?_self_of_mem hm, if_pos hm]
  · simp only [Record.find_email, Record.findEmailOpt, hp, find?_none_of_not_mem hm,
      if_neg hm]

theorem find_phone_ok_inv {r : Record} {p w : String} (h : r.find_phone p = .ok w) :
    Phone.prepare p = .ok w ∧ w ∈ r.phones := by
  cases hp : Phone.prepare p with
  | error e => simp [Record.find_phone, Record.findPhoneOpt, hp] at h
  | ok v =>
    simp only [Record.find_phone, Record.findPhoneOpt, hp] at h
    cases hf : r.phones.find? (fun x => x = v) with
    | none => rw [hf] at h; simp at h
    | some u =>
      rw [hf] at h
      simp only [Except.ok.injEq] at h
      have hm := List.mem_of_find?_eq_some hf
      have he := List.find?_some hf
      simp only [decide_eq_true_eq] at he
      subst h; subst he
      exact ⟨rfl, hm⟩

theorem find_email_ok_inv {r : Record} {p w : String} (h : r.find_email p = .ok w) :
    Email.prepare p = .ok w ∧ w ∈ r.emails := by
  cases hp : Email.prepare p with
  | error e => simp [Record.find_email, Record.findEmailOpt, hp] at h
  | ok v =>
    simp only [Record.find_email, Record.findEmailOpt, hp] at h
    cases hf : r.emails.find? (fun x => x = v) with
    | none => rw [hf] at h; simp at h
    | some u =>
      rw [hf] at h
      simp only [Except.ok.injEq] at h
      have hm := List.mem_of_find?_eq_some hf
      have he := List.find?_some hf
      simp only [decide_eq_true_eq] at he
      subst h; subst he
      exact ⟨rfl, hm⟩

theorem add_phone_ok {r r1 : Record} {p : String} (h : r.add_phone p = (r1, none)) :
    ∃ v, Phone.prepare p = .ok v ∧ v ∉ r.phones ∧
      r1 = { r with phones := r.phones ++ [v] } := by
  cases hp : Phone.prepare p with
  | error e => simp [Record.add_phone, Record.findPhoneOpt, hp] at h
  | ok v =>
    simp only [Record.add_phone, Record.findPhoneOpt, hp] at h
    cases hf : r.phones.find? (fun x => x = v) with
    | some u => rw [hf] at h; simp at h
    | none =>
      rw [hf] at h
      simp only [Prod.mk.injEq] at h
      refine ⟨v, rfl, ?_, h.1.symm⟩
      intro hm
      rw [find?_self_of_mem hm] at hf
      exact absurd hf (by simp)

theorem add_phone_exists {r : Record} {p v : String} (hp : Phone.prepare p = .ok v)
    (hm : v ∈ r.phones) : r.add_phone p = (r, some .contactPhoneAlreadyExist) := by
  simp only [Record.add_phone, Record.findPhoneOpt, hp, find?_self_of_mem hm]

theorem add_phone_fail {r r1 : Record} {p : String} {e : ABError}
    (h : r.add_phone p = (r1, some e)) : r1 = r := by
  cases hp : Phone.prepare p with
  | error e1 =>
    simp only [Record.add_phone, Record.findPhoneOpt, hp, Prod.mk.injEq] at h
    exact h.1.symm
  | ok v =>
    simp only [Record.add_phone, Record.findPhoneOpt, hp] at h
    cases hf : r.phones.find? (fun x => x = v) with
    | some u => rw [hf] at h; simp only [Prod.mk.injEq] at h; exact h.1.symm
    | none => rw [hf] at h; simp at h

theorem add_email_ok {r r1 : Record} {p : String} (h : r.add_email p = (r1, none)) :
    ∃ v, Email.prepare p = .ok v ∧ v ∉ r.emails ∧
      r1 = { r with emails := r.emails ++ [v] } := by
  cases hp : Email.prepare p with
  | error e => simp [Record.add_email, Record.findEmailOpt, hp] at h
  | ok v =>
    simp only [Record.add_email, Record.findEmailOpt, hp] at h
    cases hf : r.emails.find? (fun x => x = v) with
    | some u => rw [hf] at h; simp at h
    | none =>
      rw [hf] at h
      simp only [Prod.mk.injEq] at h
      refine ⟨v, rfl, ?_, h.1.symm⟩
      intro hm
      rw [find?_self_of_mem hm] at hf
      exact absurd hf (by simp)

theorem add_email_exists {r : Record} {p v : String} (hp : Email.prepare p = .ok v)
    (hm : v ∈ r.emails) : r.add_email p = (r, some .contactEmailAlreadyExist) := by
  simp only [Record.add_email, Record.findEmailOpt, hp, find?_self_of_mem hm]

theorem add_email_fail {r r1 : Record} {p : String} {e : ABError}
    (h : r.add_email p = (r1, some e)) : r1 = r := by
  cases hp : Email.prepare p with
  | error e1 =>
    simp only [Record.add_email, Record.findEmailOpt, hp, Prod.mk.injEq] at h
    exact h.1.symm
  | ok v =>
    simp only [Record.add_email, Record.findEmailOpt, hp] at h
    cases hf : r.emails.find? (fun x => x = v) with
    | some u => rw [hf] at h; simp only [Prod.mk.injEq] at h; exact h.1.symm
    | none => rw [hf] at h; simp at h

theorem remove_phone_ok {r r1 : Record} {p : String} (h : r.remove_phone p = (r1, none)) :
    ∃ v, Phone.prepare p = .ok v ∧ v ∈ r.phones ∧
      r1 = { r with phones := r.phones.erase v } := by
  cases hp : r.find_phone p with
  | error e => simp [Record.remove_phone, hp] at h
  | ok v =>
    simp only [Record.remove_phone, hp, Prod.mk.injEq] at h
    obtain ⟨hpp, hm⟩ := find_phone_ok_inv hp
    exact ⟨v, hpp, hm, h.1.symm⟩

theorem remove_phone_fail {r r1 : Record} {p : String} {e : ABError}
    (h : r.remove_phone p = (r1, some e)) : r1 = r := by
  cases hp : r.find_phone p with
  | error e1 => simp only [Record.remove_phone, hp, Prod.mk.injEq] at h; exact h.1.symm
  | ok v => simp [Record.remove_phone, hp] at h

theorem remove_email_ok {r r1 : Record} {p : String} (h : r.remove_email p = (r1, none)) :
    ∃ v, Email.prepare p = .ok v ∧ v ∈ r.emails ∧
      r1 = { r with emails := r.emails.erase v } := by
  cases hp : r.find_email p with
  | error e => simp [Record.remove_email, hp] at h
  | ok v =>
    simp only [Record.remove_email, hp, Prod.mk.injEq] at h
    obtain ⟨hpp, hm⟩ := find_email_ok_inv hp
    exact ⟨v, hpp, hm, h.1.symm⟩

theorem remove_email_fail {r r1 : Record} {p : String} {e : ABError}
    (h : r.remove_email p = (r1, some e)) : r1 = r := by
  cases hp : r.find_email p with
  | error e1 => simp only [Record.remove_email, hp, Prod.mk.injEq] at h; exact h.1.symm
  | ok v => simp [Record.remove_email, hp] at h

theorem edit_phone_ok {r r1 : Record} {old new : String}
    (h : r.edit_phone old new = (r1, none)) :
    ∃ ov nv, Phone.prepare new = .ok nv ∧ r.find_phone old = .ok ov ∧ ov ∈ r.phones ∧
      r1 = { r with phones := r.phones.set (r.phones.indexOf ov) nv } := by
  cases hn : Phone.prepare new with
  | error e => simp [Record.edit_phone, hn] at h
  | ok nv =>
    simp only [Record.edit_phone, hn] at h
    cases ho : r.find_phone old with
    | error e => rw [ho] at h; simp at h
    | ok ov =>
      rw [ho] at h
      simp only [Prod.mk.injEq] at h
      exact ⟨ov, nv, rfl, rfl, (find_phone_ok_inv ho).2, h.1.symm⟩

theorem edit_phone_fail {r r1 : Record} {old new : String} {e : ABError}
    (h : r.edit_phone old new = (r1, some e)) : r1 = r := by
  cases hn : Phone.prepare new with
  | error e1 =>
    simp only [Record.edit_phone, hn, Prod.mk.injEq] at h
    exact h.1.symm
  | ok nv =>
    simp only [Record.edit_phone, hn] at h
    cases ho : r.find_phone old with
    | error e1 => rw [ho] at h; simp only [Prod.mk.injEq] at h; exact h.1.symm
    | ok ov => rw [ho] at h; simp at h

theorem edit_email_ok {r r1 : Record} {old new : String}
    (h : r.edit_email old new = (r1, none)) :
    ∃ ov nv, Email.prepare new = .ok nv ∧ r.find_email old = .ok ov ∧ ov ∈ r.emails ∧
      r1 = { r with emails := r.emails.set (r.emails.indexOf ov) nv } := by
  cases hn : Email.prepare new with
  | error e => simp [Record.edit_email, hn] at h
  | ok nv =>
    simp only [Record.edit_email, hn] at h
    cases ho : r.find_email old with
    | error e => rw [ho] at h; simp at h
    | ok ov =>
      rw [ho] at h
      simp only [Prod.mk.injEq] at h
      exact ⟨ov, nv, rfl, rfl, (find_email_ok_inv ho).2, h.1.symm⟩

theorem edit_email_fail {r r1 : Record} {old new : String} {e : ABError}
    (h : r.edit_email old new = (r1, some e)) : r1 = r := by
  cases hn : Email.prepare new with
  | error e1 =>
    simp only [Record.edit_email, hn, Prod.mk.injEq] at h
    exact h.1.symm
  | ok nv =>
    simp only [Record.edit_email, hn] at h
    cases ho : r.find_email old with
    | error e1 => rw [ho] at h; simp only [Prod.mk.injEq] at h; exact h.1.symm
    | ok ov => rw [ho] at h; simp at h

/-! ## Fixpoints of normalization -/

theorem phone_prepare_fixpoint {v : String} (h : tenDigits v = true) :
    Phone.prepare v = .ok v := by
  have hne := tenDigits_ne_empty h
  have hcl : clearBy Phone.clearChar v = v := by
    apply clearBy_of_all_kept
    intro c hc
    have hd : c.isDigit = true := by
      unfold tenDigits at h
      simp only [Bool.and_eq_true, List.all_eq_true] at h
      exact h.2 c hc
    exact digit_not_cleared hd
  simp only [Phone.prepare]
  rw [if_neg hne, hcl, if_pos h]

theorem email_prepare_fixpoint {v : String} (hns : clearBy isSpaceChar v = v)
    (h : emailMatch v = true) : Email.prepare v = .ok v := by
  have hne := emailMatch_ne_empty h
  simp only [Email.prepare]
  rw [if_neg hne, hns, if_pos h]

/-! ## Characterizations of the `AddressBook` operations -/

theorem add_record_ok {b b1 : AddressBook} {c : Record}
    (h : b.add_record c = (b1, none)) :
    b.hasKey c.name = false ∧ b1 = ⟨b.data ++ [(c.name, c)]⟩ := by
  unfold AddressBook.add_record at h
  split at h
  · simp at h
  · rename_i hk
    simp only [Prod.mk.injEq] at h
    exact ⟨by simpa using hk, h.1.symm⟩

theorem add_record_fail {b b1 : AddressBook} {c : Record} {e : ABError}
    (h : b.add_record c = (b1, some e)) : b1 = b := by
  unfold AddressBook.add_record at h
  split at h
  · simp only [Prod.mk.injEq] at h; exact h.1.symm
  · simp at h

theorem delete_ok {b b1 : AddressBook} {n : String} (h : b.delete n = (b1, none)) :
    b.hasKey n = true ∧ b1 = ⟨b.data.eraseP (fun kv => kv.1 = n)⟩ := by
  unfold AddressBook.delete at h
  split at h
  · rename_i hk
    simp only [Prod.mk.injEq] at h
    exact ⟨hk, h.1.symm⟩
  · simp at h

theorem delete_fail {b b1 : AddressBook} {n : String} {e : ABError}
    (h : b.delete n = (b1, some e)) : b1 = b := by
  unfold AddressBook.delete at h
  split at h
  · simp at h
  · simp only [Prod.mk.injEq] at h; exact h.1.symm

/-! ## `indexOf` and `set` helpers -/

theorem indexOf_append_singleton {l : List String} {v : String} (h : v ∉ l) :
    (l ++ [v]).indexOf v = l.length := by
  induction l with
  | nil => simp [List.indexOf_cons]
  | cons x xs ih =>
    have hx : x ≠ v := by rintro rfl; exact h (List.mem_cons_self x xs)
    have hxs : v ∉ xs := fun hm => h (List.mem_cons_of_mem x hm)
    rw [List.cons_append, List.indexOf_cons]
    have hb : (x == v) = false := by simp [hx]
    rw [hb, cond_false, ih hxs]
    simp

theorem indexOf_lt_length_of_mem {l : List String} {v : String} (h : v ∈ l) :
    l.indexOf v < l.length := by
  induction l with
  | nil => simp at h
  | cons x xs ih =>
    rw [List.indexOf_cons]
    by_cases hx : x = v
    · simp [hx]
    · have hb : (x == v) = false := by simp [hx]
      rw [hb, cond_false]
      have hm : v ∈ xs := by
        rcases List.mem_cons.mp h with h1 | h1
        · exact absurd h1.symm hx
        · exact h1
      simpa [Nat.succ_lt_succ_iff] using ih hm

theorem set_append_length (l : List String) (a b : String) :
    (l ++ [a]).set l.length b = l ++ [b] := by
  induction l with
  | nil => rfl
  | cons x xs ih =>
    simp only [List.cons_append, List.length_cons, List.set_cons_succ, ih]

/-! ## Claim theorems -/

/-- C4 counterexample: on the input `"12\t34567890"` (a tab inside), the
code's normalization strips the tab (the clear pattern is `[()-]|\s`, all
whitespace) and accepts, while the claim's rule — remove exactly the
literal characters space, `(`, `)`, `-` — leaves the tab in place and so
demands a `PhoneInvalid` failure. -/
theorem phone_normalization_counterexample :
    Phone.prepare "12\t34567890" = .ok "1234567890" ∧
    Phone.prepareClaim "12\t34567890" = .error .contactPhoneValueError :=
  ⟨rfl, rfl⟩

/-- C4 (amended): `Phone` normalization fails with PhoneInvalid on an
empty input; otherwise it removes the characters `(`, `)`, `-` and every
whitespace character (not only the space) anywhere in the string, fails
with PhoneInvalid unless the result is exactly 10 ASCII digits, and
returns the digit string; in particular
`Phone("123-456-7890").value = "1234567890"`. -/
theorem phone_normalization_amended :
    (∀ s, Phone.prepare s = Phone.prepareAmendedClaim s) ∧
    Phone.prepare "123-456-7890" = .ok "1234567890" := by
  refine ⟨?_, rfl⟩
  intro s
  have hf : clearBy Phone.clearChar s =
      clearBy (fun c => c = ' ' || c = '\t' || c = '\n' || c = '\r'
        || c = '\x0b' || c = '\x0c' || c = '(' || c = ')' || c = '-') s := by
    unfold clearBy
    congr 1
    apply List.filter_congr
    intro c _
    apply congrArg (fun b => !b)
    rw [Bool.eq_iff_iff]
    simp only [Phone.clearChar, isSpaceChar, Bool.or_eq_true, decide_eq_true_eq]
    tauto
  simp only [Phone.prepare, Phone.prepareAmendedClaim]
  rw [hf]

/-- C5: normalization is idempotent — whenever `Phone.prepare`
(resp. `Email.prepare`) succeeds, running it again on its own output
returns that output unchanged. -/
theorem normalization_idempotent :
    (∀ p v, Phone.prepare p = .ok v → Phone.prepare v = .ok v) ∧
    (∀ p v, Email.prepare p = .ok v → Email.prepare v = .ok v) := by
  constructor
  · intro p v h
    obtain ⟨-, -, hten⟩ := prepare_phone_ok h
    exact phone_prepare_fixpoint hten
  · intro p v h
    obtain ⟨-, hv, hm⟩ := prepare_email_ok h
    have hns : clearBy isSpaceChar v = v := by
      rw [hv]; exact clearBy_idem _ _
    exact email_prepare_fixpoint hns hm

/-- Witness for C5 at the concrete inputs `"123-456-7890"` and
`"  a@b.com "`. -/
theorem normalization_idempotent_witness :
    Phone.prepare "1234567890" = .ok "1234567890" ∧
    Email.prepare "a@b.com" = .ok "a@b.com" :=
  ⟨normalization_idempotent.1 "123-456-7890" "1234567890" rfl,
   normalization_idempotent.2 "  a@b.com " "a@b.com" rfl⟩

/-- C2: every mutating operation that fails with a typed error leaves the
affected object exactly as it was: the returned state of a failing
`add_phone`/`remove_phone`/`edit_phone`, their email analogues, and
`add_record`/`delete` equals the input state (each Python method performs
its single mutating statement only after every raise point). -/
theorem failed_mutation_unchanged :
    (∀ (r r1 : Record) (p : String) (e : ABError),
        r.add_phone p = (r1, some e) → r1 = r) ∧
    (∀ (r r1 : Record) (p : String) (e : ABError),
        r.remove_phone p = (r1, some e) → r1 = r) ∧
    (∀ (r r1 : Record) (old new : String) (e : ABError),
        r.edit_phone old new = (r1, some e) → r1 = r) ∧
    (∀ (r r1 : Record) (p : String) (e : ABError),
        r.add_email p = (r1, some e) → r1 = r) ∧
    (∀ (r r1 : Record) (p : String) (e : ABError),
        r.remove_email p = (r1, some e) → r1 = r) ∧
    (∀ (r r1 : Record) (old new : String) (e : ABError),
        r.edit_email old new = (r1, some e) → r1 = r) ∧
    (∀ (b b1 : AddressBook) (c : Record) (e : ABError),
        b.add_record c = (b1, some e) → b1 = b) ∧
    (∀ (b b1 : AddressBook) (n : String) (e : ABError),
        b.delete n = (b1, some e) → b1 = b) :=
  ⟨fun _ _ _ _ h => add_phone_fail h,
   fun _ _ _ _ h => remove_phone_fail h,
   fun _ _ _ _ _ h => edit_phone_fail h,
   fun _ _ _ _ h => add_email_fail h,
   fun _ _ _ _ h => remove_email_fail h,
   fun _ _ _ _ _ h => edit_email_fail h,
   fun _ _ _ _ h => add_record_fail h,
   fun _ _ _ _ h => delete_fail h⟩

/-- Witness for C2: three concrete failing calls (duplicate add, edit with
a malformed new number, delete of an absent name) leave the state
unchanged. -/
theorem failed_mutation_unchanged_witness :
    (Record.add_phone ⟨"John", ["1111111111"], []⟩ "111 111 1111").1
      = ⟨"John", ["1111111111"], []⟩ ∧
    (Record.edit_phone ⟨"John", ["1111111111"], []⟩ "1111111111" "abc").1
      = ⟨"John", ["1111111111"], []⟩ ∧
    (AddressBook.delete ⟨[]⟩ "Jane").1 = ⟨[]⟩ := by
  refine ⟨?_, ?_, ?_⟩
  · exact failed_mutation_unchanged.1 _ _ "111 111 1111" .contactPhoneAlreadyExist rfl
  · exact failed_mutation_unchanged.2.2.1 _ _ "1111111111" "abc" .contactPhoneValueError rfl
  · exact failed_mutation_unchanged.2.2.2.2.2.2.2 _ _ "Jane" .contactNotFound rfl

/-- C7: for a raw phone string whose normalization is `v`, `find_phone`
returns `v`s entry when some stored phone equals `v`, and fails with
`ContactPhoneNotFound` when no stored phone equals `v`. -/
theorem find_phone_spec (r : Record) (p v : String) (hp : Phone.prepare p = .ok v) :
    (v ∈ r.phones → r.find_phone p = .ok v) ∧
    (v ∉ r.phones → r.find_phone p = .error .contactPhoneNotFound) := by
  rw [find_phone_eq hp]
  constructor
  · intro hm; rw [if_pos hm]
  · intro hm; rw [if_neg hm]

/-- Witness for C7 at `"123-456-7890"` against a record that stores
`"1234567890"` and one that stores nothing. -/
theorem find_phone_spec_witness :
    Record.find_phone ⟨"John", ["1234567890"], []⟩ "123-456-7890" = .ok "1234567890" ∧
    Record.find_phone ⟨"Jane", [], []⟩ "123-456-7890"
      = .error .contactPhoneNotFound := by
  constructor
  · exact (find_phone_spec ⟨"John", ["1234567890"], []⟩ "123-456-7890" "1234567890"
      rfl).1 (by simp)
  · exact (find_phone_spec ⟨"Jane", [], []⟩ "123-456-7890" "1234567890"
      rfl).2 (by simp)

/-- C9: a successful `edit_phone old new` replaces exactly the first entry
matching `old`, in place: the result is the input record with `phones` set
at index `indexOf ov` to the normalized new value; the length is
preserved, the replaced position holds the new value, and every other
position is unchanged.  No hypothesis about the new value being absent
from the other entries is needed: edit performs no duplicate check. -/
theorem edit_phone_frame (r : Record) (old new ov nv : String)
    (hold : r.find_phone old = .ok ov) (hnew : Phone.prepare new = .ok nv) :
    ov ∈ r.phones ∧
    r.phones.indexOf ov < r.phones.length ∧
    r.edit_phone old new
      = ({ r with phones := r.phones.set (r.phones.indexOf ov) nv }, none) ∧
    (r.phones.set (r.phones.indexOf ov) nv).length = r.phones.length ∧
    (r.phones.set (r.phones.indexOf ov) nv)[r.phones.indexOf ov]? = some nv ∧
    (∀ j, j ≠ r.phones.indexOf ov →
      (r.phones.set (r.phones.indexOf ov) nv)[j]? = r.phones[j]?) := by
  obtain ⟨-, hm⟩ := find_phone_ok_inv hold
  have hlt := indexOf_lt_length_of_mem hm
  refine ⟨hm, hlt, ?_, by simp, List.getElem?_set_self hlt, ?_⟩
  · simp only [Record.edit_phone, hnew, hold]
  · intro j hj
    exact List.getElem?_set_ne (fun he => hj he.symm)

/-- Witness for C9: editing `"2222222222"` to `"111-111-1111"` in a record
already holding `"1111111111"` — the edit succeeds (and creates a
duplicate, demonstrating the absence of a duplicate check). -/
theorem edit_phone_frame_witness :
    "2222222222" ∈ (["1111111111", "2222222222"] : List String) ∧
    (["1111111111", "2222222222"] : List String).indexOf "2222222222"
      < (["1111111111", "2222222222"] : List String).length ∧
    Record.edit_phone ⟨"John", ["1111111111", "2222222222"], []⟩ "2222222222"
        "111-111-1111"
      = (⟨"John", (["1111111111", "2222222222"] : List String).set
          ((["1111111111", "2222222222"] : List String).indexOf "2222222222")
          "1111111111", []⟩, none) ∧
    ((["1111111111", "2222222222"] : List String).set
        ((["1111111111", "2222222222"] : List String).indexOf "2222222222")
        "1111111111").length = (["1111111111", "2222222222"] : List String).length ∧
    ((["1111111111", "2222222222"] : List String).set
        ((["1111111111", "2222222222"] : List String).indexOf "2222222222")
        "1111111111")[(["1111111111", "2222222222"] : List String).indexOf
          "2222222222"]? = some "1111111111" ∧
    (∀ j, j ≠ (["1111111111", "2222222222"] : List String).indexOf "2222222222" →
      ((["1111111111", "2222222222"] : List String).set
          ((["1111111111", "2222222222"] : List String).indexOf "2222222222")
          "1111111111")[j]? = (["1111111111", "2222222222"] : List String)[j]?) :=
  edit_phone_frame ⟨"John", ["1111111111", "2222222222"], []⟩ "2222222222"
    "111-111-1111" "2222222222" "1111111111" rfl rfl

/-- C10: in `edit_phone`/`edit_email` the new value is validated before
the old value is looked up: when the new value fails normalization the
call fails with the value error whatever the state, and a
not-found failure can only arise when the new value normalized
successfully. -/
theorem edit_validates_new_first :
    (∀ (r : Record) (old new : String) (e : ABError),
        Phone.prepare new = .error e → r.edit_phone old new = (r, some e)) ∧
    (∀ (r r1 : Record) (old new : String),
        r.edit_phone old new = (r1, some .contactPhoneNotFound) →
        ∃ v, Phone.prepare new = .ok v) ∧
    (∀ (r : Record) (old new : String) (e : ABError),
        Email.prepare new = .error e → r.edit_email old new = (r, some e)) ∧
    (∀ (r r1 : Record) (old new : String),
        r.edit_email old new = (r1, some .contactEmailNotFound) →
        ∃ v, Email.prepare new = .ok v) := by
  refine ⟨?_, ?_, ?_, ?_⟩
  · intro r old new e he
    simp only [Record.edit_phone, he]
  · intro r r1 old new h
    cases hn : Phone.prepare new with
    | ok v => exact ⟨v, rfl⟩
    | error e =>
      have he := prepare_phone_error hn
      subst he
      simp only [Record.edit_phone, hn, Prod.mk.injEq] at h
      exact absurd h.2 (by decide)
  · intro r old new e he
    simp only [Record.edit_email, he]
  · intro r r1 old new h
    cases hn : Email.prepare new with
    | ok v => exact ⟨v, rfl⟩
    | error e =>
      have he := prepare_email_error hn
      subst he
      simp only [Record.edit_email, hn, Prod.mk.injEq] at h
      exact absurd h.2 (by decide)

/-- Witness for C10: a malformed new number fails with the value error
even though the old number is absent; a not-found edit implies the new
value had normalized. -/
theorem edit_validates_new_first_witness :
    Record.edit_phone ⟨"John", ["1111111111"], []⟩ "2222222222" "abc"
      = (⟨"John", ["1111111111"], []⟩, some .contactPhoneValueError) ∧
    (∃ v, Phone.prepare "3333333333" = .ok v) ∧
    Record.edit_email ⟨"John", [], []⟩ "a@b.com" "oops"
      = (⟨"John", [], []⟩, some .contactEmailValueError) := by
  refine ⟨?_, ?_, ?_⟩
  · exact edit_validates_new_first.1 _ "2222222222" "abc" _ rfl
  · exact edit_validates_new_first.2.1 ⟨"John", [], []⟩ ⟨"John", [], []⟩
      "1234567890" "3333333333" rfl
  · exact edit_validates_new_first.2.2.1 _ "a@b.com" "oops" _ rfl


/-- C3: after a successful `add_phone p` followed by `edit_phone p p2`
with a valid `p2`, `find_phone p2` returns the normalized `p2`, and
`find_phone p` fails with `ContactPhoneNotFound` — unless `p2` normalizes
to the same value as `p`, in which case it still finds that value. -/
theorem round_trip_edit (r r1 : Record) (p p2 v2 : String)
    (hadd : r.add_phone p = (r1, none)) (hp2 : Phone.prepare p2 = .ok v2) :
    ∃ r2, r1.edit_phone p p2 = (r2, none) ∧
      r2.find_phone p2 = .ok v2 ∧
      (Phone.prepare p ≠ .ok v2 → r2.find_phone p = .error .contactPhoneNotFound) ∧
      (Phone.prepare p = .ok v2 → r2.find_phone p = .ok v2) := by
  obtain ⟨v1, hp1, hnot, hr1⟩ := add_phone_ok hadd
  subst hr1
  have hmem1 : v1 ∈ r.phones ++ [v1] := by simp
  have hfind : ({ r with phones := r.phones ++ [v1] } : Record).find_phone p
      = .ok v1 := by
    rw [find_phone_eq hp1]
    exact if_pos hmem1
  have hset : (r.phones ++ [v1]).set ((r.phones ++ [v1]).indexOf v1) v2
      = r.phones ++ [v2] := by
    rw [indexOf_append_singleton hnot]
    exact set_append_length r.phones v1 v2
  refine ⟨{ r with phones := r.phones ++ [v2] }, ?_, ?_, ?_, ?_⟩
  · simp only [Record.edit_phone, hp2, hfind, hset]
  · rw [find_phone_eq hp2]
    exact if_pos (by simp)
  · intro hne
    have hne12 : v1 ≠ v2 := by
      rintro rfl
      exact hne hp1
    rw [find_phone_eq hp1]
    refine if_neg ?_
    simp only [List.mem_append, List.mem_singleton]
    rintro (hc | hc)
    · exact hnot hc
    · exact hne12 hc
  · intro heq
    rw [hp1] at heq
    injection heq with heq1
    subst heq1
    rw [find_phone_eq hp1]
    exact if_pos (by simp)

/-- Witness for C3: add `"123-456-7890"` to an empty record, edit it to
`"222 222 2222"`, then look both up. -/
theorem round_trip_edit_witness :
    ∃ r2, Record.edit_phone ⟨"John", ["1234567890"], []⟩ "123-456-7890"
        "222 222 2222" = (r2, none) ∧
      r2.find_phone "222 222 2222" = .ok "2222222222" ∧
      (Phone.prepare "123-456-7890" ≠ .ok "2222222222" →
        r2.find_phone "123-456-7890" = .error .contactPhoneNotFound) ∧
      (Phone.prepare "123-456-7890" = .ok "2222222222" →
        r2.find_phone "123-456-7890" = .ok "2222222222") :=
  round_trip_edit ⟨"John", [], []⟩ ⟨"John", ["1234567890"], []⟩ "123-456-7890"
    "222 222 2222" "2222222222" rfl rfl

/-! ## AddressBook lookup lemmas -/

theorem hasKey_eq_isSome (b : AddressBook) (n : String) :
    b.hasKey n = (b.data.find? (fun kv => kv.1 = n)).isSome := by
  rw [Bool.eq_iff_iff]
  unfold AddressBook.hasKey
  rw [List.any_eq_true, List.find?_isSome]

theorem getOpt_none_of_hasKey_false {b : AddressBook} {n : String}
    (h : b.hasKey n = false) : b.getOpt n = none := by
  unfold AddressBook.getOpt
  cases hf : b.data.find? (fun kv => kv.1 = n) with
  | none => rfl
  | some kv =>
    rw [hasKey_eq_isSome, hf] at h
    simp at h

theorem hasKey_true_of_getOpt_some {b : AddressBook} {n : String} {c : Record}
    (h : b.getOpt n = some c) : b.hasKey n = true := by
  rw [hasKey_eq_isSome]
  unfold AddressBook.getOpt at h
  cases hf : b.data.find? (fun kv => kv.1 = n) with
  | none => rw [hf] at h; simp at h
  | some kv => simp

theorem find_eq_of_getOpt_some {b : AddressBook} {n : String} {c : Record}
    (h : b.getOpt n = some c) : b.find n = .ok c := by
  have hk := hasKey_true_of_getOpt_some h
  simp only [AddressBook.find, hk, h, if_true]

theorem getOpt_push (b : AddressBook) (k : String) (c : Record) (n : String) :
    (⟨b.data ++ [(k, c)]⟩ : AddressBook).getOpt n
      = match b.getOpt n with
        | some r => some r
        | none => if k = n then some c else none := by
  unfold AddressBook.getOpt
  rw [List.find?_append]
  cases hf : b.data.find? (fun kv => kv.1 = n) with
  | some kv => rfl
  | none =>
    by_cases hk : k = n
    · simp [hk]
    · simp [hk]

theorem add_record_find {b b1 : AddressBook} {c : Record}
    (h : b.add_record c = (b1, none)) : b1.find c.name = .ok c := by
  obtain ⟨hk, hb1⟩ := add_record_ok h
  subst hb1
  apply find_eq_of_getOpt_some
  rw [getOpt_push, getOpt_none_of_hasKey_false hk]
  simp

theorem keysOK_applyOp {b : AddressBook} (h : b.KeysOK) (op : BOp) :
    ((b.applyOp op).1).KeysOK := by
  cases op with
  | add c =>
    by_cases hk : b.hasKey c.name
    · simpa [AddressBook.applyOp, AddressBook.add_record, hk] using h
    · simp only [AddressBook.applyOp, AddressBook.add_record, if_neg hk]
      intro kv hm
      rcases List.mem_append.mp hm with hm1 | hm1
      · exact h kv hm1
      · simp only [List.mem_singleton] at hm1
        subst hm1
        rfl
  | del n =>
    by_cases hk : b.hasKey n
    · simp only [AddressBook.applyOp, AddressBook.delete, if_pos hk]
      intro kv hm
      exact h kv ((List.eraseP_sublist b.data).mem hm)
    · simpa [AddressBook.applyOp, AddressBook.delete, hk] using h

theorem keysOK_runOps {b : AddressBook} (h : b.KeysOK) (ops : List BOp) :
    (b.runOps ops).KeysOK := by
  induction ops generalizing b with
  | nil => exact h
  | cons op ops ih =>
    simp only [AddressBook.runOps, List.foldl_cons]
    exact ih (keysOK_applyOp h op)

theorem seedStep_eq (b : AddressBook) (c : Record) :
    (if b.hasKey c.name then b else (b.add_record c).1) = (b.add_record c).1 := by
  by_cases hk : b.hasKey c.name
  · simp [AddressBook.add_record, hk]
  · simp [hk]

theorem keysOK_init (rs : List Record) : (AddressBook.init rs).KeysOK := by
  unfold AddressBook.init
  suffices hgen : ∀ (b : AddressBook), b.KeysOK →
      (rs.foldl (fun b c => if b.hasKey c.name then b else (b.add_record c).1) b).KeysOK by
    exact hgen ⟨[]⟩ (by intro kv hm; simp at hm)
  induction rs with
  | nil => intro b hb; exact hb
  | cons c rs ih =>
    intro b hb
    rw [List.foldl_cons, seedStep_eq]
    exact ih _ (keysOK_applyOp hb (BOp.add c))

/-- C6: a record successfully added to the book is stored under the key
`record.name`, `find` on that key returns it, adding under an existing key
fails with `ContactAlreadyExist`, and after seeding and any sequence of
`add_record`/`delete` operations every stored key equals the `name` of the
record it maps to. -/
theorem directory_key_consistency :
    (∀ (b b1 : AddressBook) (c : Record), b.add_record c = (b1, none) →
        b1.find c.name = .ok c ∧ (c.name, c) ∈ b1.data) ∧
    (∀ (b : AddressBook) (c : Record), b.hasKey c.name = true →
        b.add_record c = (b, some .contactAlreadyExist)) ∧
    (∀ (rs : List Record) (ops : List BOp),
        ((AddressBook.init rs).runOps ops).KeysOK) := by
  refine ⟨?_, ?_, ?_⟩
  · intro b b1 c h
    refine ⟨add_record_find h, ?_⟩
    obtain ⟨-, hb1⟩ := add_record_ok h
    subst hb1
    simp
  · intro b c hk
    unfold AddressBook.add_record
    rw [if_pos hk]
  · intro rs ops
    exact keysOK_runOps (keysOK_init rs) ops

/-- Witness for C6: add Jane to the empty book and find her; re-adding a
record named Jane fails; the key invariant holds for a seeded book after
one more operation. -/
theorem directory_key_consistency_witness :
    (⟨[("Jane", (⟨"Jane", [], []⟩ : Record))]⟩ : AddressBook).find "Jane"
      = .ok ⟨"Jane", [], []⟩ ∧
    AddressBook.add_record ⟨[("Jane", ⟨"Jane", [], []⟩)]⟩ ⟨"Jane", ["1111111111"], []⟩
      = (⟨[("Jane", ⟨"Jane", [], []⟩)]⟩, some .contactAlreadyExist) ∧
    ((AddressBook.init [⟨"Jane", [], []⟩]).runOps [BOp.add ⟨"John", [], []⟩]).KeysOK := by
  refine ⟨?_, ?_, ?_⟩
  · exact (directory_key_consistency.1 ⟨[]⟩ ⟨[("Jane", ⟨"Jane", [], []⟩)]⟩
      ⟨"Jane", [], []⟩ rfl).1
  · exact directory_key_consistency.2.1 ⟨[("Jane", ⟨"Jane", [], []⟩)]⟩
      ⟨"Jane", ["1111111111"], []⟩ rfl
  · exact directory_key_consistency.2.2 [⟨"Jane", [], []⟩] [BOp.add ⟨"John", [], []⟩]

/-! ## `Except` computation rules and membership helpers -/

theorem except_ok_bind {α β : Type} (a : α) (f : α → Except ABError β) :
    (Except.ok a >>= f) = f a := rfl

theorem except_error_bind {α β : Type} (e : ABError) (f : α → Except ABError β) :
    (Except.error e >>= f : Except ABError β) = Except.error e := rfl

theorem except_pure {α : Type} (a : α) :
    (pure a : Except ABError α) = Except.ok a := rfl

theorem contains_iff_mem {l : List String} {v : String} :
    l.contains v = true ↔ v ∈ l := by
  unfold List.contains
  exact List.elem_iff

theorem nodup_append_singleton {l : List String} {v : String} (hn : l.Nodup)
    (hv : v ∉ l) : (l ++ [v]).Nodup := by
  rw [List.nodup_append]
  refine ⟨hn, List.nodup_singleton v, ?_⟩
  intro a ha hb
  simp only [List.mem_singleton] at hb
  subst hb
  exact hv ha

/-! ## The bulk-seeding fold of `Record.__init__` -/

theorem seedPhone_step {r r2 : Record} {p : String}
    (h : Record.seedPhone r p = Except.ok r2) :
    ∃ v, Phone.prepare p = .ok v ∧
      ((v ∈ r.phones ∧ r2 = r) ∨
       (v ∉ r.phones ∧ r2 = { r with phones := r.phones ++ [v] })) := by
  cases hp : Phone.prepare p with
  | error e => simp [Record.seedPhone, Record.findPhoneOpt, hp] at h
  | ok v =>
    simp only [Record.seedPhone, Record.findPhoneOpt, hp] at h
    cases hf : r.phones.find? (fun x => x = v) with
    | some u =>
      rw [hf] at h
      simp only [Except.ok.injEq] at h
      have hm := List.mem_of_find?_eq_some hf
      have he := List.find?_some hf
      simp only [decide_eq_true_eq] at he
      exact ⟨v, rfl, .inl ⟨he ▸ hm, h.symm⟩⟩
    | none =>
      rw [hf] at h
      rcases ha : r.add_phone p with ⟨r3, oe⟩
      rw [ha] at h
      cases oe with
      | some e => simp at h
      | none =>
        simp only [Except.ok.injEq] at h
        obtain ⟨w, hw, hnm, hr3⟩ := add_phone_ok ha
        rw [hp] at hw
        injection hw with hw1
        subst hw1
        subst hr3
        exact ⟨v, rfl, .inr ⟨hnm, h.symm⟩⟩

theorem seedEmail_step {r r2 : Record} {p : String}
    (h : Record.seedEmail r p = Except.ok r2) :
    ∃ v, Email.prepare p = .ok v ∧
      ((v ∈ r.emails ∧ r2 = r) ∨
       (v ∉ r.emails ∧ r2 = { r with emails := r.emails ++ [v] })) := by
  cases hp : Email.prepare p with
  | error e => simp [Record.seedEmail, Record.findEmailOpt, hp] at h
  | ok v =>
    simp only [Record.seedEmail, Record.findEmailOpt, hp] at h
    cases hf : r.emails.find? (fun x => x = v) with
    | some u =>
      rw [hf] at h
      simp only [Except.ok.injEq] at h
      have hm := List.mem_of_find?_eq_some hf
      have he := List.find?_some hf
      simp only [decide_eq_true_eq] at he
      exact ⟨v, rfl, .inl ⟨he ▸ hm, h.symm⟩⟩
    | none =>
      rw [hf] at h
      rcases ha : r.add_email p with ⟨r3, oe⟩
      rw [ha] at h
      cases oe with
      | some e => simp at h
      | none =>
        simp only [Except.ok.injEq] at h
        obtain ⟨w, hw, hnm, hr3⟩ := add_email_ok ha
        rw [hp] at hw
        injection hw with hw1
        subst hw1
        subst hr3
        exact ⟨v, rfl, .inr ⟨hnm, h.symm⟩⟩

theorem seedPhone_fold (ps : List String) (ns : List String) (r : Record)
    (h : ps.mapM Phone.prepare = Except.ok ns) :
    ps.foldlM Record.seedPhone r
      = Except.ok ⟨r.name, r.phones ++ firstDedupAux r.phones ns, r.emails⟩ := by
  induction ps generalizing ns r with
  | nil =>
    rw [List.mapM_nil, except_pure] at h
    injection h with h1
    subst h1
    rw [List.foldlM_nil, except_pure]
    simp only [firstDedupAux, List.append_nil]
  | cons p ps ih =>
    rw [List.mapM_cons] at h
    cases hp : Phone.prepare p with
    | error e => rw [hp, except_error_bind] at h; simp at h
    | ok v =>
      rw [hp, except_ok_bind] at h
      cases hm : ps.mapM Phone.prepare with
      | error e => rw [hm, except_error_bind] at h; simp at h
      | ok vs =>
        rw [hm, except_ok_bind, except_pure] at h
        injection h with h1
        subst h1
        rw [List.foldlM_cons]
        by_cases hmem : v ∈ r.phones
        · have hseed : Record.seedPhone r p = Except.ok r := by
            simp only [Record.seedPhone, Record.findPhoneOpt, hp,
              find?_self_of_mem hmem]
          rw [hseed, except_ok_bind]
          have hcont : r.phones.contains v = true := contains_iff_mem.mpr hmem
          simp only [firstDedupAux]
          rw [if_pos hcont]
          exact ih vs r hm
        · have hadd : r.add_phone p = ({ r with phones := r.phones ++ [v] }, none) := by
            simp only [Record.add_phone, Record.findPhoneOpt, hp,
              find?_none_of_not_mem hmem]
          have hseed : Record.seedPhone r p
              = Except.ok { r with phones := r.phones ++ [v] } := by
            simp only [Record.seedPhone, Record.findPhoneOpt, hp,
              find?_none_of_not_mem hmem, hadd]
          rw [hseed, except_ok_bind]
          simp only [firstDedupAux]
          rw [if_neg (fun hc => hmem (contains_iff_mem.mp hc))]
          rw [ih vs { r with phones := r.phones ++ [v] } hm, List.append_assoc]
          exact rfl

theorem seedEmail_fold (ps : List String) (ns : List String) (r : Record)
    (h : ps.mapM Email.prepare = Except.ok ns) :
    ps.foldlM Record.seedEmail r
      = Except.ok ⟨r.name, r.phones, r.emails ++ firstDedupAux r.emails ns⟩ := by
  induction ps generalizing ns r with
  | nil =>
    rw [List.mapM_nil, except_pure] at h
    injection h with h1
    subst h1
    rw [List.foldlM_nil, except_pure]
    simp only [firstDedupAux, List.append_nil]
  | cons p ps ih =>
    rw [List.mapM_cons] at h
    cases hp : Email.prepare p with
    | error e => rw [hp, except_error_bind] at h; simp at h
    | ok v =>
      rw [hp, except_ok_bind] at h
      cases hm : ps.mapM Email.prepare with
      | error e => rw [hm, except_error_bind] at h; simp at h
      | ok vs =>
        rw [hm, except_ok_bind, except_pure] at h
        injection h with h1
        subst h1
        rw [List.foldlM_cons]
        by_cases hmem : v ∈ r.emails
        · have hseed : Record.seedEmail r p = Except.ok r := by
            simp only [Record.seedEmail, Record.findEmailOpt, hp,
              find?_self_of_mem hmem]
          rw [hseed, except_ok_bind]
          have hcont : r.emails.contains v = true := contains_iff_mem.mpr hmem
          simp only [firstDedupAux]
          rw [if_pos hcont]
          exact ih vs r hm
        · have hadd : r.add_email p = ({ r with emails := r.emails ++ [v] }, none) := by
            simp only [Record.add_email, Record.findEmailOpt, hp,
              find?_none_of_not_mem hmem]
          have hseed : Record.seedEmail r p
              = Except.ok { r with emails := r.emails ++ [v] } := by
            simp only [Record.seedEmail, Record.findEmailOpt, hp,
              find?_none_of_not_mem hmem, hadd]
          rw [hseed, except_ok_bind]
          simp only [firstDedupAux]
          rw [if_neg (fun hc => hmem (contains_iff_mem.mp hc))]
          rw [ih vs { r with emails := r.emails ++ [v] } hm, List.append_assoc]
          exact rfl

theorem record_init_phones (name : String) (ps ns : List String)
    (hname : name ≠ "") (h : ps.mapM Phone.prepare = Except.ok ns) :
    Record.init name (some ps) none = .ok ⟨name, firstDedup ns, []⟩ := by
  unfold Record.init
  rw [if_neg hname]
  simp only [Option.getD_some, Option.getD_none]
  rw [seedPhone_fold ps ns ⟨name, [], []⟩ h, except_ok_bind, List.foldlM_nil]
  rw [except_pure]
  simp [firstDedup]

theorem record_init_emails (name : String) (es ns : List String)
    (hname : name ≠ "") (h : es.mapM Email.prepare = Except.ok ns) :
    Record.init name none (some es) = .ok ⟨name, [], firstDedup ns⟩ := by
  unfold Record.init
  rw [if_neg hname]
  simp only [Option.getD_some, Option.getD_none]
  rw [List.foldlM_nil, except_pure, except_ok_bind]
  rw [seedEmail_fold es ns ⟨name, [], []⟩ h]
  simp [firstDedup]

/-! ## The seeding fold of `AddressBook.__init__` -/

theorem init_getOpt (rs : List Record) (n : String) :
    (AddressBook.init rs).getOpt n = rs.find? (fun c => c.name = n) := by
  unfold AddressBook.init
  suffices hgen : ∀ (b : AddressBook),
      (rs.foldl (fun b c => if b.hasKey c.name then b else (b.add_record c).1) b).getOpt n
        = match b.getOpt n with
          | some r => some r
          | none => rs.find? (fun c => c.name = n) by
    rw [hgen ⟨[]⟩]
    rfl
  induction rs with
  | nil =>
    intro b
    cases hb : b.getOpt n <;> simp [hb]
  | cons c rs ih =>
    intro b
    rw [List.foldl_cons, seedStep_eq]
    by_cases hk : b.hasKey c.name
    · have hstep : (b.add_record c).1 = b := by
        simp [AddressBook.add_record, hk]
      rw [hstep, ih b]
      cases hb : b.getOpt n with
      | some r => rfl
      | none =>
        have hn : c.name ≠ n := by
          rintro rfl
          rw [hasKey_eq_isSome] at hk
          unfold AddressBook.getOpt at hb
          cases hf : b.data.find? (fun kv => kv.1 = c.name) with
          | none => rw [hf] at hk; simp at hk
          | some kv => rw [hf] at hb; simp at hb
        rw [List.find?_cons_of_neg]
        simp [hn]
    · have hstep : (b.add_record c).1 = ⟨b.data ++ [(c.name, c)]⟩ := by
        simp [AddressBook.add_record, hk]
      rw [hstep, ih, getOpt_push]
      cases hb : b.getOpt n with
      | some r => rfl
      | none =>
        by_cases hn : c.name = n
        · rw [if_pos hn]
          rw [List.find?_cons_of_pos]
          simp [hn]
        · rw [if_neg hn]
          rw [List.find?_cons_of_neg]
          simp [hn]

/-- C8: bulk constructors silently collapse duplicates to the first
occurrence, explicit adds reject them.  Seeding a `Record` with valid raw
phone (resp. email) lists succeeds and stores exactly the
first-occurrence dedup of their normalized values, in order — in
particular the `Record("Jane", phones=[...])` example; lookup in a seeded
`AddressBook` returns the first seed record with the given name (later
same-name records are dropped); and `add_phone`/`add_email`/`add_record`
fail with the AlreadyExists error on the same duplicates. -/
theorem bulk_dedup_vs_explicit_reject :
    (∀ (name : String) (ps ns : List String), name ≠ "" →
        ps.mapM Phone.prepare = Except.ok ns →
        Record.init name (some ps) none = .ok ⟨name, firstDedup ns, []⟩) ∧
    (∀ (name : String) (es ns : List String), name ≠ "" →
        es.mapM Email.prepare = Except.ok ns →
        Record.init name none (some es) = .ok ⟨name, [], firstDedup ns⟩) ∧
    Record.init "Jane" (some ["1111111111", "1111111111", "2222222222"]) none
      = .ok ⟨"Jane", ["1111111111", "2222222222"], []⟩ ∧
    (∀ (rs : List Record) (n : String),
        (AddressBook.init rs).getOpt n = rs.find? (fun c => c.name = n)) ∧
    (∀ (r : Record) (p v : String), Phone.prepare p = .ok v → v ∈ r.phones →
        r.add_phone p = (r, some .contactPhoneAlreadyExist)) ∧
    (∀ (r : Record) (p v : String), Email.prepare p = .ok v → v ∈ r.emails →
        r.add_email p = (r, some .contactEmailAlreadyExist)) ∧
    (∀ (b : AddressBook) (c : Record), b.hasKey c.name = true →
        b.add_record c = (b, some .contactAlreadyExist)) := by
  refine ⟨record_init_phones, record_init_emails, rfl, init_getOpt, ?_, ?_, ?_⟩
  · intro r p v hp hm
    exact add_phone_exists hp hm
  · intro r p v hp hm
    exact add_email_exists hp hm
  · intro b c hk
    unfold AddressBook.add_record
    rw [if_pos hk]

/-- Witness for C8: the Jane example, a duplicate explicit `add_phone` and
a duplicate explicit `add_record`. -/
theorem bulk_dedup_witness :
    Record.init "Jane" (some ["1111111111", "1111111111", "2222222222"]) none
      = .ok ⟨"Jane", firstDedup ["1111111111", "1111111111", "2222222222"], []⟩ ∧
    Record.add_phone ⟨"Jane", ["1111111111"], []⟩ "1111111111"
      = (⟨"Jane", ["1111111111"], []⟩, some .contactPhoneAlreadyExist) ∧
    AddressBook.add_record ⟨[("Jane", ⟨"Jane", [], []⟩)]⟩ ⟨"Jane", ["9876543210"], []⟩
      = (⟨[("Jane", ⟨"Jane", [], []⟩)]⟩, some .contactAlreadyExist) := by
  refine ⟨?_, ?_, ?_⟩
  · exact bulk_dedup_vs_explicit_reject.1 "Jane"
      ["1111111111", "1111111111", "2222222222"]
      ["1111111111", "1111111111", "2222222222"] (by decide) rfl
  · exact bulk_dedup_vs_explicit_reject.2.2.2.2.1 ⟨"Jane", ["1111111111"], []⟩
      "1111111111" "1111111111" rfl (by simp)
  · exact bulk_dedup_vs_explicit_reject.2.2.2.2.2.2 ⟨[("Jane", ⟨"Jane", [], []⟩)]⟩
      ⟨"Jane", ["9876543210"], []⟩ rfl

/-! ## Uniqueness preservation (for C1) -/

theorem seedPhone_fold_nodup (ps : List String) (r r1 : Record)
    (h : ps.foldlM Record.seedPhone r = Except.ok r1) (hn : r.phones.Nodup) :
    r1.phones.Nodup ∧ r1.emails = r.emails := by
  induction ps generalizing r with
  | nil =>
    rw [List.foldlM_nil, except_pure] at h
    injection h with h1
    subst h1
    exact ⟨hn, rfl⟩
  | cons p ps ih =>
    rw [List.foldlM_cons] at h
    cases hs : Record.seedPhone r p with
    | error e => rw [hs, except_error_bind] at h; simp at h
    | ok r2 =>
      rw [hs, except_ok_bind] at h
      obtain ⟨v, -, hc⟩ := seedPhone_step hs
      rcases hc with ⟨-, hr⟩ | ⟨hnm, hr⟩
      · rw [hr] at h
        exact ih r h hn
      · rw [hr] at h
        obtain ⟨h1, h2⟩ := ih _ h (nodup_append_singleton hn hnm)
        exact ⟨h1, h2⟩

theorem seedEmail_fold_nodup (ps : List String) (r r1 : Record)
    (h : ps.foldlM Record.seedEmail r = Except.ok r1) (hn : r.emails.Nodup) :
    r1.emails.Nodup ∧ r1.phones = r.phones := by
  induction ps generalizing r with
  | nil =>
    rw [List.foldlM_nil, except_pure] at h
    injection h with h1
    subst h1
    exact ⟨hn, rfl⟩
  | cons p ps ih =>
    rw [List.foldlM_cons] at h
    cases hs : Record.seedEmail r p with
    | error e => rw [hs, except_error_bind] at h; simp at h
    | ok r2 =>
      rw [hs, except_ok_bind] at h
      obtain ⟨v, -, hc⟩ := seedEmail_step hs
      rcases hc with ⟨-, hr⟩ | ⟨hnm, hr⟩
      · rw [hr] at h
        exact ih r h hn
      · rw [hr] at h
        obtain ⟨h1, h2⟩ := ih _ h (nodup_append_singleton hn hnm)
        exact ⟨h1, h2⟩

theorem record_init_nodup {name : String} {ps es : Option (List String)}
    {r : Record} (h : Record.init name ps es = Except.ok r) :
    r.phones.Nodup ∧ r.emails.Nodup := by
  unfold Record.init at h
  split at h
  · simp at h
  · cases hf : (ps.getD []).foldlM Record.seedPhone ⟨name, [], []⟩ with
    | error e => rw [hf, except_error_bind] at h; simp at h
    | ok r1 =>
      rw [hf, except_ok_bind] at h
      obtain ⟨hp1, he1⟩ := seedPhone_fold_nodup _ _ _ hf (by simp)
      obtain ⟨he2, hp2⟩ := seedEmail_fold_nodup _ _ _ h (by rw [he1]; simp)
      refine ⟨?_, he2⟩
      rw [hp2]
      exact hp1

theorem runOps_cons (r : Record) (op : ROp) (ops : List ROp) :
    r.runOps (op :: ops) = ((r.applyOp op).1).runOps ops := rfl

theorem applyOp_nodup {r : Record} {op : ROp} (hno : op.isEdit = false)
    (hp : r.phones.Nodup) (he : r.emails.Nodup) :
    ((r.applyOp op).1).phones.Nodup ∧ ((r.applyOp op).1).emails.Nodup := by
  cases op with
  | addPhone p =>
    rcases hres : r.add_phone p with ⟨r1, oe⟩
    cases oe with
    | none =>
      obtain ⟨v, -, hnm, hr⟩ := add_phone_ok hres
      subst hr
      simp only [Record.applyOp, hres]
      exact ⟨nodup_append_singleton hp hnm, he⟩
    | some e =>
      have h1 := add_phone_fail hres
      simp only [Record.applyOp, hres, h1]
      exact ⟨hp, he⟩
  | removePhone p =>
    rcases hres : r.remove_phone p with ⟨r1, oe⟩
    cases oe with
    | none =>
      obtain ⟨v, -, -, hr⟩ := remove_phone_ok hres
      subst hr
      simp only [Record.applyOp, hres]
      exact ⟨List.Nodup.sublist (List.erase_sublist v r.phones) hp, he⟩
    | some e =>
      have h1 := remove_phone_fail hres
      simp only [Record.applyOp, hres, h1]
      exact ⟨hp, he⟩
  | addEmail p =>
    rcases hres : r.add_email p with ⟨r1, oe⟩
    cases oe with
    | none =>
      obtain ⟨v, -, hnm, hr⟩ := add_email_ok hres
      subst hr
      simp only [Record.applyOp, hres]
      exact ⟨hp, nodup_append_singleton he hnm⟩
    | some e =>
      have h1 := add_email_fail hres
      simp only [Record.applyOp, hres, h1]
      exact ⟨hp, he⟩
  | removeEmail p =>
    rcases hres : r.remove_email p with ⟨r1, oe⟩
    cases oe with
    | none =>
      obtain ⟨v, -, -, hr⟩ := remove_email_ok hres
      subst hr
      simp only [Record.applyOp, hres]
      exact ⟨hp, List.Nodup.sublist (List.erase_sublist v r.emails) he⟩
    | some e =>
      have h1 := remove_email_fail hres
      simp only [Record.applyOp, hres, h1]
      exact ⟨hp, he⟩
  | editPhone old new => simp [ROp.isEdit] at hno
  | editEmail old new => simp [ROp.isEdit] at hno

theorem runOps_nodup {r : Record} (ops : List ROp)
    (hedit : ∀ op ∈ ops, op.isEdit = false)
    (hp : r.phones.Nodup) (he : r.emails.Nodup) :
    (r.runOps ops).phones.Nodup ∧ (r.runOps ops).emails.Nodup := by
  induction ops generalizing r with
  | nil => exact ⟨hp, he⟩
  | cons op ops ih =>
    rw [runOps_cons]
    obtain ⟨h1, h2⟩ := applyOp_nodup (hedit op (List.mem_cons_self op ops)) hp he
    exact ih (fun o ho => hedit o (List.mem_cons_of_mem op ho)) h1 h2

theorem applyOp_shape (r : Record) (op : ROp) :
    ((∃ v, ((r.applyOp op).1).phones = r.phones ++ [v]) ∨
     (∃ v, ((r.applyOp op).1).phones = r.phones.erase v) ∨
     (∃ i v, ((r.applyOp op).1).phones = r.phones.set i v) ∨
     ((r.applyOp op).1).phones = r.phones) ∧
    ((∃ v, ((r.applyOp op).1).emails = r.emails ++ [v]) ∨
     (∃ v, ((r.applyOp op).1).emails = r.emails.erase v) ∨
     (∃ i v, ((r.applyOp op).1).emails = r.emails.set i v) ∨
     ((r.applyOp op).1).emails = r.emails) := by
  cases op with
  | addPhone p =>
    rcases hres : r.add_phone p with ⟨r1, oe⟩
    cases oe with
    | none =>
      obtain ⟨v, -, -, hr⟩ := add_phone_ok hres
      exact ⟨.inl ⟨v, by simp [Record.applyOp, hres, hr]⟩,
        .inr (.inr (.inr (by simp [Record.applyOp, hres, hr])))⟩
    | some e =>
      have h1 := add_phone_fail hres
      exact ⟨.inr (.inr (.inr (by simp [Record.applyOp, hres, h1]))),
        .inr (.inr (.inr (by simp [Record.applyOp, hres, h1])))⟩
  | removePhone p =>
    rcases hres : r.remove_phone p with ⟨r1, oe⟩
    cases oe with
    | none =>
      obtain ⟨v, -, -, hr⟩ := remove_phone_ok hres
      exact ⟨.inr (.inl ⟨v, by simp [Record.applyOp, hres, hr]⟩),
        .inr (.inr (.inr (by simp [Record.applyOp, hres, hr])))⟩
    | some e =>
      have h1 := remove_phone_fail hres
      exact ⟨.inr (.inr (.inr (by simp [Record.applyOp, hres, h1]))),
        .inr (.inr (.inr (by simp [Record.applyOp, hres, h1])))⟩
  | editPhone old new =>
    rcases hres : r.edit_phone old new with ⟨r1, oe⟩
    cases oe with
    | none =>
      obtain ⟨ov, nv, -, -, -, hr⟩ := edit_phone_ok hres
      exact ⟨.inr (.inr (.inl ⟨r.phones.indexOf ov, nv,
          by simp [Record.applyOp, hres, hr]⟩)),
        .inr (.inr (.inr (by simp [Record.applyOp, hres, hr])))⟩
    | some e =>
      have h1 := edit_phone_fail hres
      exact ⟨.inr (.inr (.inr (by simp [Record.applyOp, hres, h1]))),
        .inr (.inr (.inr (by simp [Record.applyOp, hres, h1])))⟩
  | addEmail p =>
    rcases hres : r.add_email p with ⟨r1, oe⟩
    cases oe with
    | none =>
      obtain ⟨v, -, -, hr⟩ := add_email_ok hres
      exact ⟨.inr (.inr (.inr (by simp [Record.applyOp, hres, hr]))),
        .inl ⟨v, by simp [Record.applyOp, hres, hr]⟩⟩
    | some e =>
      have h1 := add_email_fail hres
      exact ⟨.inr (.inr (.inr (by simp [Record.applyOp, hres, h1]))),
        .inr (.inr (.inr (by simp [Record.applyOp, hres, h1])))⟩
  | removeEmail p =>
    rcases hres : r.remove_email p with ⟨r1, oe⟩
    cases oe with
    | none =>
      obtain ⟨v, -, -, hr⟩ := remove_email_ok hres
      exact ⟨.inr (.inr (.inr (by simp [Record.applyOp, hres, hr]))),
        .inr (.inl ⟨v, by simp [Record.applyOp, hres, hr]⟩)⟩
    | some e =>
      have h1 := remove_email_fail hres
      exact ⟨.inr (.inr (.inr (by simp [Record.applyOp, hres, h1]))),
        .inr (.inr (.inr (by simp [Record.applyOp, hres, h1])))⟩
  | editEmail old new =>
    rcases hres : r.edit_email old new with ⟨r1, oe⟩
    cases oe with
    | none =>
      obtain ⟨ov, nv, -, -, -, hr⟩ := edit_email_ok hres
      exact ⟨.inr (.inr (.inr (by simp [Record.applyOp, hres, hr]))),
        .inr (.inr (.inl ⟨r.emails.indexOf ov, nv,
          by simp [Record.applyOp, hres, hr]⟩))⟩
    | some e =>
      have h1 := edit_email_fail hres
      exact ⟨.inr (.inr (.inr (by simp [Record.applyOp, hres, h1]))),
        .inr (.inr (.inr (by simp [Record.applyOp, hres, h1])))⟩

/-- C1 counterexample: a record constructed with the two distinct phones
`1111111111`, `2222222222` admits the successful operation
`edit_phone("2222222222", "1111111111")`, after which two entries share
the same normalized value: the uniqueness invariant does not hold "after
any sequence of operations" once `edit_phone` is included, since edit
performs no duplicate check. -/
theorem record_uniqueness_counterexample :
    Record.init "John" (some ["1111111111", "2222222222"]) none
      = .ok ⟨"John", ["1111111111", "2222222222"], []⟩ ∧
    Record.edit_phone ⟨"John", ["1111111111", "2222222222"], []⟩ "2222222222"
        "1111111111"
      = (⟨"John", ["1111111111", "1111111111"], []⟩, none) ∧
    ¬ (["1111111111", "1111111111"] : List String).Nodup :=
  ⟨rfl, rfl, by decide⟩

/-- C1 (amended): for every Record and every sequence of operations *not
containing* `edit_phone`/`edit_email`, no two entries of `phones`
(resp. `emails`) share a normalized value at any observable point
(construction establishes the invariant and add/remove preserve it; the
excluded edits may create duplicates, as they check nothing).  Insertion
order of the surviving entries is preserved by *every* operation,
edits included: each step leaves the sequences untouched, appends one
value, erases the first occurrence of one value, or overwrites one
position in place. -/
theorem record_uniqueness_amended :
    (∀ (name : String) (ps es : Option (List String)) (r : Record),
        Record.init name ps es = Except.ok r →
        r.phones.Nodup ∧ r.emails.Nodup) ∧
    (∀ (r : Record) (ops : List ROp), (∀ op ∈ ops, op.isEdit = false) →
        r.phones.Nodup → r.emails.Nodup →
        (r.runOps ops).phones.Nodup ∧ (r.runOps ops).emails.Nodup) ∧
    (∀ (r : Record) (op : ROp),
      ((∃ v, ((r.applyOp op).1).phones = r.phones ++ [v]) ∨
       (∃ v, ((r.applyOp op).1).phones = r.phones.erase v) ∨
       (∃ i v, ((r.applyOp op).1).phones = r.phones.set i v) ∨
       ((r.applyOp op).1).phones = r.phones) ∧
      ((∃ v, ((r.applyOp op).1).emails = r.emails ++ [v]) ∨
       (∃ v, ((r.applyOp op).1).emails = r.emails.erase v) ∨
       (∃ i v, ((r.applyOp op).1).emails = r.emails.set i v) ∨
       ((r.applyOp op).1).emails = r.emails)) := by
  refine ⟨?_, ?_, applyOp_shape⟩
  · intro name ps es r h
    exact record_init_nodup h
  · intro r ops hedit hp he
    exact runOps_nodup ops hedit hp he

/-- Witness for C1 (amended): a seeded construction with a duplicate in
the seed list, and an add/add/remove sequence, both end in duplicate-free
states. -/
theorem record_uniqueness_amended_witness :
    ((⟨"Jane", ["1111111111", "2222222222"], []⟩ : Record).phones.Nodup ∧
      (⟨"Jane", ["1111111111", "2222222222"], []⟩ : Record).emails.Nodup) ∧
    ((Record.runOps ⟨"John", [], []⟩
        [ROp.addPhone "1234567890", ROp.addPhone "123-456-7890",
         ROp.removePhone "1234567890"]).phones.Nodup ∧
      (Record.runOps ⟨"John", [], []⟩
        [ROp.addPhone "1234567890", ROp.addPhone "123-456-7890",
         ROp.removePhone "1234567890"]).emails.Nodup) := by
  constructor
  · exact record_uniqueness_amended.1 "Jane"
      (some ["1111111111", "1111111111", "2222222222"]) none
      ⟨"Jane", ["1111111111", "2222222222"], []⟩ rfl
  · exact record_uniqueness_amended.2.1 ⟨"John", [], []⟩
      [ROp.addPhone "1234567890", ROp.addPhone "123-456-7890",
       ROp.removePhone "1234567890"] (by decide) (by simp) (by simp)

end AB
